import Mathlib

/-!
Shallow embedding of the ScriptSight annotation-filtering core
(scriptsight.py): the color classifier, the per-image filter pipeline of
filter_and_collect, the memoized annotation store, the thumbnail cache key
derivation of make_thumbnail, and the background worker build_thumbnails.
Python floats are modelled as rationals, fallible Python code (exceptions)
as Option / explicit failure values.
-/

/-! ## Python-style integer parsing (int(str)) -/

/-- Whitespace characters stripped by Python around the digits of an int literal. -/
def isPySpace (c : Char) : Bool :=
  c == ' ' || c == '\t' || c == '\n' || c == '\r' || c == '\x0b' || c == '\x0c'

/-- Value of a decimal digit character, if it is one. -/
def digitVal (c : Char) : Option Nat :=
  if c.isDigit then some (c.toNat - 48) else none

/-- Remaining digits of a Python int literal: decimal digits with single
underscores allowed strictly between digits. -/
def digitsCore : Nat → List Char → Option Nat
  | acc, [] => some acc
  | acc, '_' :: c :: rest =>
    match digitVal c with
    | some d => digitsCore (10 * acc + d) rest
    | none => none
  | acc, c :: rest =>
    match digitVal c with
    | some d => digitsCore (10 * acc + d) rest
    | none => none

/-- Unsigned part of a Python int literal: at least one digit, underscores
only between digits. -/
def pyNat? : List Char → Option Nat
  | [] => none
  | c :: rest =>
    match digitVal c with
    | some d => digitsCore d rest
    | none => none

/-- Python int(str) on a character list: strip surrounding whitespace, allow an
optional sign, then parse the digits; none models the ValueError raised on
malformed input. -/
def pyIntOfChars (cs : List Char) : Option Int :=
  let cs := ((cs.dropWhile isPySpace).reverse.dropWhile isPySpace).reverse
  match cs with
  | '+' :: rest => (pyNat? rest).map (fun n => (n : Int))
  | '-' :: rest => (pyNat? rest).map (fun n => -(n : Int))
  | rest => (pyNat? rest).map (fun n => (n : Int))

/-- Python str.split(sep) for a single-character separator. -/
def splitOnChar (sep : Char) : List Char → List (List Char)
  | [] => [[]]
  | c :: rest =>
    let r := splitOnChar sep rest
    if c = sep then [] :: r
    else
      match r with
      | [] => [[c]]
      | h :: t => (c :: h) :: t

/-! ## Color classifier (scriptsight.py lines 24-49 and 140-173) -/

/-- Python map(int, parts) materialised: parse every component, failing (as
Python raises) at the first component that is not an int literal. -/
def parseAllInts : List (List Char) → Option (List Int)
  | [] => some []
  | p :: rest =>
    match pyIntOfChars p with
    | some v => (parseAllInts rest).map (fun l => v :: l)
    | none => none

/-- Embeds parse_color (lines 140-144): tuple(map(int, code.split('-'))),
falling back to (255, 255, 255) when some component fails to parse as an int.
Note the tuple may have any arity when all components parse. -/
def parse_color (code : String) : List Int :=
  match parseAllInts (splitOnChar '-' code.data) with
  | some l => l
  | none => [255, 255, 255]

/-- The parse step of rgb_to_label (line 148): r, g, b = map(int, code.split('-')).
none models the ValueError raised unless the code splits into exactly three
components, each parsing as an int. -/
def parseRGB3 (code : String) : Option (Int × Int × Int) :=
  match parseAllInts (splitOnChar '-' code.data) with
  | some [r, g, b] => some (r, g, b)
  | _ => none

/-- First entry of the centers palette (line 25). -/
def centersHead : String × Int × Int × Int := ("black", 10, 10, 10)

/-- Remaining entries of the centers palette in insertion order (lines 26-32). -/
def centersTail : List (String × Int × Int × Int) :=
  [("grey", 150, 150, 150), ("blue", 60, 60, 190), ("red", 200, 20, 0),
   ("white", 255, 255, 255), ("green", 0, 255, 0)]

/-- The centers palette dict (lines 24-38) as an insertion-ordered list. -/
def centersList : List (String × Int × Int × Int) := centersHead :: centersTail

/-- parent.get(nearest, nearest) (lines 40-49): fold a label through the
inverted group_map, passing unlisted labels through. -/
def parentFold (lbl : String) : String :=
  match ([("blue", "blue"), ("red", "red"), ("black", "black")]).lookup lbl with
  | some p => p
  | none => lbl

/-- Squared Euclidean RGB distance to a palette center (lines 166-169);
each square (r - ctr) ** 2 is written as a product. -/
def dist2 (r g b : Int) (ctr : Int × Int × Int) : Int :=
  (r - ctr.1) * (r - ctr.1) + (g - ctr.2.1) * (g - ctr.2.1) + (b - ctr.2.2) * (b - ctr.2.2)

/-- Python min(xs, key=f) over a nonempty sequence: the first element with
minimal key, phrased as the fold Python's min performs. -/
def argminFirst {α : Type} (f : α → Int) (x : α) (xs : List α) : α :=
  xs.foldl (fun best y => if f y < f best then y else best) x

/-- The classification rules of rgb_to_label (lines 149-173) on an already
parsed (r, g, b) triple. -/
def rgbLabelCore (r g b : Int) : String :=
  if max r (max g b) < 60 then "black"
  else if min r (min g b) > 220 then "white"
  else if max r (max g b) - min r (min g b) < 20 then "grey"
  else if r > g + 30 ∧ r > b + 30 then "red"
  else if g > r + 50 ∧ g > b + 50 then "green"
  else if b > r + 30 ∧ b > g + 30 then "blue"
  else parentFold (argminFirst (fun p => dist2 r g b p.2) centersHead centersTail).1

/-- Embeds rgb_to_label (lines 147-173); none models the ValueError raised
when the color code does not parse as three dash-separated ints. -/
def rgb_to_label (code : String) : Option String :=
  (parseRGB3 code).map (fun t => rgbLabelCore t.1 t.2.1 t.2.2)

/-- Written from the spec (section 4.2, Color Classifier) for comparison with
rgbLabelCore: the same thresholds in the stated order, with the nearest-center
fallback phrased the way the spec words it — the first palette entry whose
squared Euclidean distance is minimal (ties broken by palette iteration
order), folded through the super-group map. -/
def specClassify (r g b : Int) : String :=
  if max r (max g b) < 60 then "black"
  else if min r (min g b) > 220 then "white"
  else if max r (max g b) - min r (min g b) < 20 then "grey"
  else if r > g + 30 ∧ r > b + 30 then "red"
  else if g > r + 50 ∧ g > b + 50 then "green"
  else if b > r + 30 ∧ b > g + 30 then "blue"
  else
    match centersList.find?
        (fun p => centersList.all (fun q => decide (dist2 r g b p.2 ≤ dist2 r g b q.2))) with
    | some p => parentFold p.1
    | none => "white"

/-! ## Generic first-argmin lemmas -/

theorem foldl_min_le_init {α : Type} (f : α → Int) :
    ∀ (xs : List α) (i : Int), xs.foldl (fun a y => min a (f y)) i ≤ i := by
  intro xs
  induction xs with
  | nil => intro i; simp
  | cons y ys ih =>
    intro i
    calc (y :: ys).foldl (fun a y => min a (f y)) i
        = ys.foldl (fun a y => min a (f y)) (min i (f y)) := rfl
      _ ≤ min i (f y) := ih _
      _ ≤ i := min_le_left _ _

theorem le_foldl_min_iff {α : Type} (f : α → Int) (z : Int) :
    ∀ (xs : List α) (i : Int),
      z ≤ xs.foldl (fun a y => min a (f y)) i ↔ z ≤ i ∧ ∀ q ∈ xs, z ≤ f q := by
  intro xs
  induction xs with
  | nil => intro i; simp
  | cons y ys ih =>
    intro i
    constructor
    · intro h
      have h' := (ih (min i (f y))).mp h
      refine ⟨le_trans h'.1 (min_le_left _ _), ?_⟩
      intro q hq
      rcases List.mem_cons.mp hq with rfl | hq
      · exact le_trans h'.1 (min_le_right _ _)
      · exact h'.2 q hq
    · rintro ⟨h1, h2⟩
      refine (ih (min i (f y))).mpr ⟨le_min h1 (h2 y (List.mem_cons_self _ _)), ?_⟩
      intro q hq
      exact h2 q (List.mem_cons_of_mem _ hq)

theorem find?_min_eq_argminFirst {α : Type} (f : α → Int) :
    ∀ (xs : List α) (x : α),
      List.find? (fun p => decide (f p ≤ xs.foldl (fun a y => min a (f y)) (f x)))
        (x :: xs) = some (argminFirst f x xs) := by
  intro xs
  induction xs with
  | nil =>
    intro x
    simp [argminFirst]
  | cons y ys ih =>
    intro x
    have hfold : (y :: ys).foldl (fun a y => min a (f y)) (f x)
        = ys.foldl (fun a y => min a (f y)) (min (f x) (f y)) := rfl
    have hstep : argminFirst f x (y :: ys) = argminFirst f (if f y < f x then y else x) ys := rfl
    by_cases hyx : f y < f x
    · have hmin : min (f x) (f y) = f (if f y < f x then y else x) := by
        rw [if_pos hyx]; exact min_eq_right (le_of_lt hyx)
      have hM : ¬ f x ≤ (y :: ys).foldl (fun a y => min a (f y)) (f x) := by
        rw [hfold, hmin, if_pos hyx]
        intro hle
        exact absurd (le_trans hle (foldl_min_le_init f ys (f y))) (not_le.mpr hyx)
      rw [List.find?_cons_of_neg _ (by simpa using hM)]
      rw [hstep, if_pos hyx]
      have := ih y
      rw [hfold, hmin, if_pos hyx]
      exact this
    · have hxy : f x ≤ f y := le_of_not_lt hyx
      have hmin : min (f x) (f y) = f x := min_eq_left hxy
      rw [hstep, if_neg hyx]
      by_cases hx : f x ≤ (y :: ys).foldl (fun a y => min a (f y)) (f x)
      · rw [List.find?_cons_of_pos _ (by simpa using hx)]
        have hx' : f x ≤ ys.foldl (fun a y => min a (f y)) (f x) := by
          rw [hfold, hmin] at hx; exact hx
        have := ih x
        rw [List.find?_cons_of_pos _ (by simpa using hx')] at this
        exact this
      · have hMlt : (y :: ys).foldl (fun a y => min a (f y)) (f x) < f x := by
          rcases lt_or_ge ((y :: ys).foldl (fun a y => min a (f y)) (f x)) (f x) with h | h
          · exact h
          · exact absurd h (by simpa using hx)
        have hy : ¬ f y ≤ (y :: ys).foldl (fun a y => min a (f y)) (f x) := by
          intro hle
          exact hyx (lt_of_le_of_lt hle hMlt)
        rw [List.find?_cons_of_neg _ (by simpa using hx)]
        rw [List.find?_cons_of_neg _ (by simpa using hy)]
        have := ih x
        have hx' : ¬ f x ≤ ys.foldl (fun a y => min a (f y)) (f x) := by
          rw [hfold, hmin] at hx; exact hx
        rw [List.find?_cons_of_neg _ (by simpa using hx')] at this
        rw [hfold, hmin]
        exact this

theorem all_le_eq_le_min {α : Type} (f : α → Int) (x : α) (xs : List α) (p : α) :
    ((x :: xs).all (fun q => decide (f p ≤ f q)))
      = decide (f p ≤ xs.foldl (fun a y => min a (f y)) (f x)) := by
  have h1 : ((x :: xs).all (fun q => decide (f p ≤ f q)) = true)
      ↔ (decide (f p ≤ xs.foldl (fun a y => min a (f y)) (f x)) = true) := by
    simp only [List.all_eq_true, decide_eq_true_eq]
    rw [le_foldl_min_iff]
    constructor
    · intro h
      exact ⟨h x (List.mem_cons_self _ _), fun q hq => h q (List.mem_cons_of_mem _ hq)⟩
    · rintro ⟨h1, h2⟩ q hq
      rcases List.mem_cons.mp hq with rfl | hq
      · exact h1
      · exact h2 q hq
  exact Bool.eq_iff_iff.mpr h1

theorem find?_all_eq_argminFirst {α : Type} (f : α → Int) (x : α) (xs : List α) :
    List.find? (fun p => (x :: xs).all (fun q => decide (f p ≤ f q))) (x :: xs)
      = some (argminFirst f x xs) := by
  have hpred : (fun (p : α) => (x :: xs).all (fun q => decide (f p ≤ f q)))
      = (fun p => decide (f p ≤ xs.foldl (fun a y => min a (f y)) (f x))) := by
    funext p
    exact all_le_eq_le_min f x xs p
  rw [hpred]
  exact find?_min_eq_argminFirst f xs x

theorem rgb_find_eq (r g b : Int) :
    centersList.find?
        (fun p => centersList.all (fun q => decide (dist2 r g b p.2 ≤ dist2 r g b q.2)))
      = some (argminFirst (fun p => dist2 r g b p.2) centersHead centersTail) := by
  have h := find?_all_eq_argminFirst
    (fun q : String × Int × Int × Int => dist2 r g b q.2) centersHead centersTail
  simpa only [centersList] using h

/-! ## Claim C7 -/

/-- C7: rgb_to_label applies its classification rules in the stated strict
first-match-wins order with the exact thresholds — it agrees with the rule
chain written from the spec (achromatic cuts, hue shortcuts, then the
first-minimum nearest-center fallback folded through the super-group map) on
every parsed triple — and in particular it classifies "10-10-10" as black,
"250-250-250" as white, and "200-20-0" as red. -/
theorem rgb_to_label_rule_order :
    (∀ r g b : Int, rgbLabelCore r g b = specClassify r g b)
    ∧ rgb_to_label "10-10-10" = some "black"
    ∧ rgb_to_label "250-250-250" = some "white"
    ∧ rgb_to_label "200-20-0" = some "red" := by
  refine ⟨?_, by decide, by decide, by decide⟩
  intro r g b
  unfold rgbLabelCore specClassify
  rw [rgb_find_eq]

/-! ## Claim C4 -/

/-- C4 counterexample: on the unparsable color code "abc", rgb_to_label does
not return the white fallback label; it has no result at all (the Python code
raises ValueError at line 148 instead of recovering). -/
theorem rgb_to_label_no_white_fallback :
    rgb_to_label "abc" ≠ some "white" ∧ rgb_to_label "abc" = none :=
  ⟨by decide, by decide⟩

/-- Helper: parseAllInts fails as soon as one component fails. -/
theorem parseAllInts_eq_none_of_mem :
    ∀ (l : List (List Char)), (∃ a ∈ l, pyIntOfChars a = none) → parseAllInts l = none := by
  intro l
  induction l with
  | nil => rintro ⟨a, ha, _⟩; exact absurd ha (List.not_mem_nil a)
  | cons x xs ih =>
    rintro ⟨a, ha, hga⟩
    rcases List.mem_cons.mp ha with rfl | ha
    · simp [parseAllInts, hga]
    · cases hx : pyIntOfChars x with
      | none => simp [parseAllInts, hx]
      | some v => simp [parseAllInts, hx, ih ⟨a, ha, hga⟩]

/-- C4 amended: when the input cannot be parsed as three dash-separated
integers, rgb_to_label fails (the exception propagates) rather than returning
a label; the neutral white fallback (255, 255, 255) lives in parse_color,
which substitutes it whenever some dash-separated component fails to parse as
an int. -/
theorem rgb_to_label_parse_failure :
    (∀ code : String, parseRGB3 code = none → rgb_to_label code = none)
    ∧ (∀ code : String,
        (∃ part ∈ splitOnChar '-' code.data, pyIntOfChars part = none) →
        parse_color code = [255, 255, 255]) := by
  constructor
  · intro code h
    simp [rgb_to_label, h]
  · intro code h
    simp [parse_color, parseAllInts_eq_none_of_mem _ h]

/-- C4 witness: the amended statement applied at the concrete inputs "abc"
(no dashes at all) and "x-1" (a non-integer component). -/
theorem rgb_to_label_parse_failure_witness :
    rgb_to_label "abc" = none ∧ parse_color "x-1" = [255, 255, 255] :=
  ⟨rgb_to_label_parse_failure.1 "abc" (by decide),
   rgb_to_label_parse_failure.2 "x-1" ⟨"x".data, by decide, by decide⟩⟩

/-! ## Annotation data model (scriptsight.py document format) -/

/-- One annotation record of an annotation document. Presence of a field in
the JSON object is modelled by Option (a default for segmentation); floats
are modelled as rationals. -/
structure Annotation where
  image_id : Nat
  writing_tool : Option String := none
  orientation : Option String := none
  color_code : Option String := none
  score : Option ℚ := none
  area : Option ℚ := none
  segmentation : List (List ℚ) := []
  page_position : Option (ℚ × ℚ × ℚ × ℚ) := none
deriving DecidableEq

/-- One entry of a document's images list. -/
structure ImgRec where
  id : Nat
  file_name : String
deriving DecidableEq

/-- A parsed annotation document after the .get defaults of
filter_and_collect: images and annotations both default to empty. -/
structure Doc where
  images : List ImgRec := []
  annotations : List Annotation := []
deriving DecidableEq

/-- a.get('score', 0.0). -/
def scoreOf (a : Annotation) : ℚ := a.score.getD 0

/-- float(a.get('area', 0.0)). -/
def areaOf (a : Annotation) : ℚ := a.area.getD 0

/-- ASCII case lowering, the effect of str.lower() on the ASCII names the
documents carry. -/
def asciiLowerChar (c : Char) : Char :=
  if 'A' ≤ c ∧ c ≤ 'Z' then Char.ofNat (c.toNat + 32) else c

/-- str.lower() on ASCII strings. -/
def asciiLower (s : String) : String := String.mk (s.data.map asciiLowerChar)

/-- a.get('writing_tool', '').lower(). -/
def toolOf (a : Annotation) : String := asciiLower (a.writing_tool.getD "")

/-- a.get('orientation', '').lower(). -/
def orientOf (a : Annotation) : String := asciiLower (a.orientation.getD "")

/-- rgb_to_label(a.get('color_code', '0-0-0')); none when that call raises. -/
def colorLabelOf (a : Annotation) : Option String :=
  rgb_to_label (a.color_code.getD "0-0-0")

/-! ## Filter pipeline (filter_and_collect, lines 200-264) -/

/-- Filter stage 1 (line 214): drop page-crop annotations. -/
def cropFilter (anns : List Annotation) : List Annotation :=
  anns.filter (fun a => !a.page_position.isSome)

/-- Filter stage 2 (line 217): confidence threshold. -/
def scoreFilter (min_score : ℚ) (anns : List Annotation) : List Annotation :=
  anns.filter (fun a => decide (min_score ≤ scoreOf a))

/-- Line 228: local_max = max of the areas of the current set, 0.0 if empty. -/
def localMaxArea (anns : List Annotation) : ℚ :=
  match anns with
  | [] => 0
  | a :: rest => (rest.map areaOf).foldl max (areaOf a)

/-- Filter stages 4-5 (lines 227-230): relative area threshold against the
per-image maximum. -/
def areaFilterStage (area_ratio : ℚ) (anns : List Annotation) : List Annotation :=
  let local_max := localMaxArea anns
  anns.filter (fun a => decide (area_ratio * local_max ≤ areaOf a))

/-- The non-crop, score-passing, area-passing annotations of an image. -/
def qualifyingSet (min_score area_ratio : ℚ) (anns : List Annotation) : List Annotation :=
  areaFilterStage area_ratio (scoreFilter min_score (cropFilter anns))

/-- The continue-condition of the two no_words checks (lines 219-225 and
233-238): true when the image is cut. -/
def gateFails (no_words : Bool) (anns : List Annotation) : Bool :=
  if no_words then !anns.isEmpty else anns.isEmpty

/-- One tool/orientation facet stage (lines 241-251): with a non-empty
selection keep the matching annotations, cutting the image when none
survive. -/
def facetStage (sel : List String) (key : Annotation → String) (anns : List Annotation) :
    Option (List Annotation) :=
  if sel.isEmpty then some anns
  else
    let f := anns.filter (fun a => sel.contains (key a))
    if f.isEmpty then none else some f

/-- Per-image outcome of the filter loop body: err models an exception
escaping (a malformed color code reaching rgb_to_label), skip a continue,
keep the surviving annotation list. -/
inductive ImgOutcome where
  | err : ImgOutcome
  | skip : ImgOutcome
  | keep : List Annotation → ImgOutcome
deriving DecidableEq

/-- The color facet stage (lines 253-256), which can raise. -/
def colorStage (sel : List String) (anns : List Annotation) : ImgOutcome :=
  if sel.isEmpty then ImgOutcome.keep anns
  else if anns.all (fun a => (colorLabelOf a).isSome) then
    let f := anns.filter (fun a =>
      match colorLabelOf a with
      | some lbl => sel.contains lbl
      | none => false)
    if f.isEmpty then ImgOutcome.skip else ImgOutcome.keep f
  else ImgOutcome.err

/-- The body of the per-image loop of filter_and_collect (lines 210-258). -/
def processImage (sel_tools sel_orients sel_colors : List String) (no_words : Bool)
    (min_score area_ratio : ℚ) (anns0 : List Annotation) : ImgOutcome :=
  let anns1 := scoreFilter min_score (cropFilter anns0)
  if gateFails no_words anns1 then ImgOutcome.skip
  else
    let anns2 := areaFilterStage area_ratio anns1
    if gateFails no_words anns2 then ImgOutcome.skip
    else
      match facetStage sel_tools toolOf anns2 with
      | none => ImgOutcome.skip
      | some anns3 =>
        match facetStage sel_orients orientOf anns3 with
        | none => ImgOutcome.skip
        | some anns4 => colorStage sel_colors anns4

/-- os.path.splitext stem: drop the text from the last dot on, unless the
part before it is empty or only dots. -/
def stemOf (s : String) : String :=
  let cs := s.data
  match cs.reverse.findIdx? (fun c => c == '.') with
  | none => s
  | some i =>
    let keep := cs.take (cs.length - 1 - i)
    if keep.any (fun c => c != '.') then String.mk keep else s

/-- Path(s).name: the final path component. -/
def baseName (s : String) : String :=
  String.mk ((splitOnChar '/' s.data).getLastD s.data)

/-- Embeds find_image_file (lines 176-182) over an abstract file-existence
predicate standing for the disk. -/
def find_image_file (fe : String → Bool) (img_dir : String) (name : String) : Option String :=
  let stem := stemOf name
  if fe (img_dir ++ "/" ++ stem ++ ".jpg") then some (img_dir ++ "/" ++ stem ++ ".jpg")
  else if fe (img_dir ++ "/" ++ stem ++ ".png") then some (img_dir ++ "/" ++ stem ++ ".png")
  else none

/-- ann_map.get(img['id'], []) (lines 205-207, 211): the document's
annotations for one image id, in document order. -/
def annsFor (anns : List Annotation) (i : Nat) : List Annotation :=
  anns.filter (fun a => a.image_id == i)

/-- The per-document image loop of filter_and_collect (lines 210-262): an
err outcome aborts the whole call, a skipped image contributes nothing, and
a kept image contributes a match result when its file resolves on disk. -/
def collectImages (fe : String → Bool) (folder : String)
    (sel_tools sel_orients sel_colors : List String) (no_words : Bool)
    (min_score area_ratio : ℚ) (anns : List Annotation) :
    List ImgRec → Option (List (String × List Annotation))
  | [] => some []
  | img :: rest =>
    match processImage sel_tools sel_orients sel_colors no_words min_score area_ratio
        (annsFor anns img.id) with
    | ImgOutcome.err => none
    | ImgOutcome.skip =>
      collectImages fe folder sel_tools sel_orients sel_colors no_words min_score
        area_ratio anns rest
    | ImgOutcome.keep kept =>
      match find_image_file fe folder (baseName img.file_name) with
      | some full =>
        (collectImages fe folder sel_tools sel_orients sel_colors no_words min_score
            area_ratio anns rest).map (fun r => (full, kept) :: r)
      | none =>
        collectImages fe folder sel_tools sel_orients sel_colors no_words min_score
          area_ratio anns rest

/-- Embeds filter_and_collect (lines 200-264). The documents of the JSON
folder are listed in glob order as (stem, parse result); a parse failure
(json.loads raising inside _load_json_cached at line 204) or a color error
aborts the whole call, modelled by none. -/
def filter_and_collect (fe : String → Bool) (img_root : String)
    (docs : List (String × Option Doc)) (sel_tools sel_orients sel_colors : List String)
    (no_words : Bool) (min_score area_ratio : ℚ) :
    Option (List (String × List Annotation)) :=
  match docs with
  | [] => some []
  | (_, none) :: _ => none
  | (stem, some d) :: rest =>
    match collectImages fe (img_root ++ "/" ++ stem) sel_tools sel_orients sel_colors
        no_words min_score area_ratio d.annotations d.images with
    | none => none
    | some r =>
      match filter_and_collect fe img_root rest sel_tools sel_orients sel_colors
          no_words min_score area_ratio with
      | none => none
      | some r2 => some (r ++ r2)

/-! ## Subset lemmas along the pipeline -/

theorem mem_cropFilter_page_none {a : Annotation} {anns : List Annotation}
    (h : a ∈ cropFilter anns) : a.page_position = none := by
  have h2 := (List.mem_filter.mp h).2
  cases hpp : a.page_position with
  | none => rfl
  | some v => rw [hpp] at h2; simp at h2

theorem scoreFilter_subset {ms : ℚ} {anns : List Annotation} :
    ∀ x ∈ scoreFilter ms anns, x ∈ anns :=
  fun _ hx => (List.mem_filter.mp hx).1

theorem areaFilterStage_subset {ar : ℚ} {anns : List Annotation} :
    ∀ x ∈ areaFilterStage ar anns, x ∈ anns := by
  intro x hx
  simp only [areaFilterStage] at hx
  exact (List.mem_filter.mp hx).1

theorem facetStage_subset {sel : List String} {key : Annotation → String}
    {anns out : List Annotation} (h : facetStage sel key anns = some out) :
    ∀ x ∈ out, x ∈ anns := by
  by_cases hsel : sel.isEmpty
  · simp only [facetStage, if_pos hsel] at h
    cases h
    exact fun x hx => hx
  · simp only [facetStage, if_neg hsel] at h
    by_cases hf : (anns.filter (fun a => sel.contains (key a))).isEmpty
    · rw [if_pos hf] at h; cases h
    · rw [if_neg hf] at h
      cases h
      exact fun x hx => (List.mem_filter.mp hx).1

theorem colorStage_keep_subset {sel : List String} {anns out : List Annotation}
    (h : colorStage sel anns = ImgOutcome.keep out) :
    ∀ x ∈ out, x ∈ anns := by
  by_cases hsel : sel.isEmpty
  · simp only [colorStage, if_pos hsel] at h
    cases h
    exact fun x hx => hx
  · simp only [colorStage, if_neg hsel] at h
    by_cases hall : anns.all (fun a => (colorLabelOf a).isSome)
    · rw [if_pos hall] at h
      by_cases hf : (anns.filter (fun a =>
          match colorLabelOf a with
          | some lbl => sel.contains lbl
          | none => false)).isEmpty
      · rw [if_pos hf] at h; cases h
      · rw [if_neg hf] at h
        cases h
        exact fun x hx => (List.mem_filter.mp hx).1
    · rw [if_neg hall] at h; cases h

theorem processImage_keep_subset {ts os cs : List String} {nw : Bool} {ms ar : ℚ}
    {anns0 out : List Annotation}
    (h : processImage ts os cs nw ms ar anns0 = ImgOutcome.keep out) :
    ∀ x ∈ out, x ∈ cropFilter anns0 := by
  simp only [processImage] at h
  split at h
  · cases h
  · split at h
    · cases h
    · split at h
      · cases h
      · rename_i anns3 heq3
        split at h
        · cases h
        · rename_i anns4 heq4
          intro x hx
          have hx4 := colorStage_keep_subset h x hx
          have hx3 := facetStage_subset heq4 x hx4
          have hx2 := facetStage_subset heq3 x hx3
          have hx1 := areaFilterStage_subset x hx2
          exact scoreFilter_subset x hx1

theorem processImage_keep_no_page {ts os cs : List String} {nw : Bool} {ms ar : ℚ}
    {anns0 out : List Annotation}
    (h : processImage ts os cs nw ms ar anns0 = ImgOutcome.keep out) :
    ∀ a ∈ out, a.page_position = none :=
  fun a ha => mem_cropFilter_page_none (processImage_keep_subset h a ha)

theorem collectImages_no_page (fe : String → Bool) (folder : String)
    (ts os cs : List String) (nw : Bool) (ms ar : ℚ) (anns : List Annotation) :
    ∀ (imgs : List ImgRec) (res : List (String × List Annotation)),
      collectImages fe folder ts os cs nw ms ar anns imgs = some res →
      ∀ pr ∈ res, ∀ a ∈ pr.2, a.page_position = none := by
  intro imgs
  induction imgs with
  | nil =>
    intro res h pr hpr
    simp only [collectImages] at h
    cases h
    simp at hpr
  | cons img rest ih =>
    intro res h pr hpr
    simp only [collectImages] at h
    split at h
    · cases h
    · exact ih res h pr hpr
    · rename_i kept heq
      split at h
      · rename_i full hfind
        cases hrec : collectImages fe folder ts os cs nw ms ar anns rest with
        | none => rw [hrec] at h; simp at h
        | some r =>
          rw [hrec] at h
          simp only [Option.map_some'] at h
          cases h
          rcases List.mem_cons.mp hpr with heq2 | hpr2
          · subst heq2
            exact fun a ha => processImage_keep_no_page heq a ha
          · exact ih r hrec pr hpr2
      · exact ih res h pr hpr

/-- Shared helper: no returned matched annotation carries page_position. -/
theorem fc_results_no_page
    (fe : String → Bool) (img_root : String) (docs : List (String × Option Doc))
    (ts os cs : List String) (nw : Bool) (ms ar : ℚ)
    (res : List (String × List Annotation))
    (h : filter_and_collect fe img_root docs ts os cs nw ms ar = some res) :
    ∀ pr ∈ res, ∀ a ∈ pr.2, a.page_position = none := by
  induction docs generalizing res with
  | nil =>
    simp only [filter_and_collect] at h
    cases h
    intro pr hpr
    simp at hpr
  | cons d rest ih =>
    intro pr hpr
    match d with
    | (stem, none) =>
      simp only [filter_and_collect] at h
      cases h
    | (stem, some doc) =>
      simp only [filter_and_collect] at h
      split at h
      · cases h
      · rename_i r1 h1
        split at h
        · cases h
        · rename_i r2 h2
          cases h
          rcases List.mem_append.mp hpr with hpr1 | hpr2
          · exact collectImages_no_page fe _ ts os cs nw ms ar doc.annotations
              doc.images r1 h1 pr hpr1
          · exact ih r2 h2 pr hpr2

/-! ## Claim C1 -/

/-- C1: for every document set, image root and filter specification, no
annotation carrying a page_position field appears among the matched
annotations of any match result returned by filter_and_collect. -/
theorem filter_and_collect_excludes_page_crops
    (fe : String → Bool) (img_root : String) (docs : List (String × Option Doc))
    (ts os cs : List String) (nw : Bool) (ms ar : ℚ)
    (res : List (String × List Annotation))
    (h : filter_and_collect fe img_root docs ts os cs nw ms ar = some res) :
    ∀ pr ∈ res, ∀ a ∈ pr.2, a.page_position = none :=
  fc_results_no_page fe img_root docs ts os cs nw ms ar res h

/-! ## Concrete example data for witnesses -/

/-- A content annotation passing every default filter. -/
def exAnn : Annotation :=
  { image_id := 0, writing_tool := some "pen", score := some 1, area := some 1 }

/-- A one-image document carrying exAnn. -/
def exDoc : Doc :=
  { images := [{ id := 0, file_name := "pg.jpg" }], annotations := [exAnn] }

/-- Evaluation of the embedded filter_and_collect on the concrete document
exDoc with an all-defaults filter specification and every file present. -/
theorem exRun_eval :
    filter_and_collect (fun _ => true) "root" [("d", some exDoc)] [] [] [] false 0 0
      = some [("root/d/pg.jpg", [exAnn])] := by
  have hstem : stemOf (baseName "pg.jpg") = "pg" := by decide
  norm_num [filter_and_collect, collectImages, processImage, annsFor, cropFilter,
    scoreFilter, areaFilterStage, localMaxArea, qualifyingSet, gateFails, facetStage,
    colorStage, scoreOf, areaOf, find_image_file, exDoc, exAnn, hstem, List.filter]
  decide

/-- C1 witness: the theorem applied to the concrete run exRun_eval, at the
single returned match result and its single matched annotation. -/
theorem filter_and_collect_excludes_page_crops_witness : exAnn.page_position = none :=
  filter_and_collect_excludes_page_crops (fun _ => true) "root" [("d", some exDoc)]
    [] [] [] false 0 0 [("root/d/pg.jpg", [exAnn])] exRun_eval
    ("root/d/pg.jpg", [exAnn]) (by simp) exAnn (by simp)

/-! ## Claim C6 -/

theorem foldl_max_all_eq {c : ℚ} :
    ∀ l : List ℚ, (∀ x ∈ l, x = c) → l.foldl max c = c := by
  intro l
  induction l with
  | nil => intro _; rfl
  | cons y ys ih =>
    intro h
    have hy : y = c := h y (List.mem_cons_self _ _)
    have : (y :: ys).foldl max c = ys.foldl max (max c y) := rfl
    rw [this, hy, max_self]
    exact ih (fun x hx => h x (List.mem_cons_of_mem _ hx))

theorem localMaxArea_all_eq {c : ℚ} :
    ∀ anns : List Annotation, (∀ a ∈ anns, areaOf a = c) → anns ≠ [] →
      localMaxArea anns = c := by
  intro anns hall hne
  match anns with
  | [] => exact absurd rfl hne
  | a :: rest =>
    simp only [localMaxArea]
    rw [hall a (List.mem_cons_self _ _)]
    apply foldl_max_all_eq
    intro x hx
    rcases List.mem_map.mp hx with ⟨b, hb, rfl⟩
    exact hall b (List.mem_cons_of_mem _ hb)

/-- C6: the area threshold of filter_and_collect is relative and per image.
With local_max the maximum area of the current annotation set (0 if empty),
exactly the annotations of area below min_area_ratio times local_max are
dropped; with every area equal to 10, a ratio of one half keeps everything;
once the maximum area is 100, every annotation of area below 50 is dropped. -/
theorem area_threshold_relative :
    (∀ (ar : ℚ) (anns : List Annotation) (a : Annotation),
        a ∈ areaFilterStage ar anns ↔ a ∈ anns ∧ ar * localMaxArea anns ≤ areaOf a)
    ∧ localMaxArea [] = 0
    ∧ (∀ anns : List Annotation, (∀ a ∈ anns, areaOf a = 10) →
        areaFilterStage (1/2) anns = anns)
    ∧ (∀ anns : List Annotation, localMaxArea anns = 100 →
        ∀ a ∈ anns, areaOf a < 50 → a ∉ areaFilterStage (1/2) anns) := by
  refine ⟨?_, rfl, ?_, ?_⟩
  · intro ar anns a
    simp only [areaFilterStage, List.mem_filter, decide_eq_true_eq]
  · intro anns hall
    apply List.filter_eq_self.mpr
    intro a ha
    have hne : anns ≠ [] := List.ne_nil_of_mem ha
    rw [localMaxArea_all_eq anns hall hne, hall a ha]
    simp only [decide_eq_true_eq]
    norm_num
  · intro anns hmax a _ hlt hmem
    simp only [areaFilterStage, List.mem_filter, decide_eq_true_eq, hmax] at hmem
    have : (50 : ℚ) ≤ areaOf a := by linarith [hmem.2]
    linarith

/-- Annotations for the C6 witness. -/
def wAnnA : Annotation := { image_id := 0, area := some 10 }

def wAnnB : Annotation := { image_id := 1, area := some 10 }

def wAnnC : Annotation := { image_id := 0, area := some 100 }

def wAnnD : Annotation := { image_id := 1, area := some 49 }

/-- C6 witness: the two concrete scenarios of the claim, obtained by applying
the theorem at areas (10, 10) and (100, 49) with ratio one half. -/
theorem area_threshold_relative_witness :
    areaFilterStage (1/2) [wAnnA, wAnnB] = [wAnnA, wAnnB]
    ∧ wAnnD ∉ areaFilterStage (1/2) [wAnnC, wAnnD] := by
  constructor
  · refine area_threshold_relative.2.2.1 [wAnnA, wAnnB] ?_
    intro a ha
    rcases List.mem_cons.mp ha with rfl | ha2
    · norm_num [areaOf, wAnnA]
    · rcases List.mem_cons.mp ha2 with rfl | ha3
      · norm_num [areaOf, wAnnB]
      · simp at ha3
  · refine area_threshold_relative.2.2.2 [wAnnC, wAnnD] ?_ wAnnD (by simp) ?_
    · simp only [localMaxArea, List.map, List.foldl, areaOf, wAnnC, wAnnD, Option.getD]
      rw [max_eq_left]
      norm_num
    · norm_num [areaOf, wAnnD]

/-! ## Claim C2 -/

theorem cropFilter_subset {anns : List Annotation} :
    ∀ x ∈ cropFilter anns, x ∈ anns :=
  fun _ hx => (List.mem_filter.mp hx).1

theorem foldl_max_mem : ∀ (l : List ℚ) (i : ℚ), l.foldl max i = i ∨ l.foldl max i ∈ l := by
  intro l
  induction l with
  | nil => intro i; left; rfl
  | cons y ys ih =>
    intro i
    have hstep : (y :: ys).foldl max i = ys.foldl max (max i y) := rfl
    rw [hstep]
    rcases ih (max i y) with h | h
    · rcases max_cases i y with ⟨hmax, _⟩ | ⟨hmax, _⟩
      · left; rw [h, hmax]
      · right; rw [h, hmax]; exact List.mem_cons_self _ _
    · right; exact List.mem_cons_of_mem _ h

theorem localMaxArea_mem : ∀ (anns : List Annotation), anns ≠ [] →
    ∃ a ∈ anns, areaOf a = localMaxArea anns := by
  intro anns hne
  match anns with
  | [] => exact absurd rfl hne
  | a :: rest =>
    simp only [localMaxArea]
    rcases foldl_max_mem (rest.map areaOf) (areaOf a) with h | h
    · exact ⟨a, List.mem_cons_self _ _, h.symm⟩
    · rcases List.mem_map.mp h with ⟨b, hb, hba⟩
      exact ⟨b, List.mem_cons_of_mem _ hb, hba⟩

theorem areaFilterStage_ne_nil {ar : ℚ} {anns : List Annotation}
    (har : ar ≤ 1) (hpos : ∀ a ∈ anns, 0 ≤ areaOf a) (hne : anns ≠ []) :
    areaFilterStage ar anns ≠ [] := by
  rcases localMaxArea_mem anns hne with ⟨x, hx, hxa⟩
  have hlm : 0 ≤ localMaxArea anns := hxa ▸ hpos x hx
  have hcond : ar * localMaxArea anns ≤ areaOf x := by
    rw [hxa]
    calc ar * localMaxArea anns ≤ 1 * localMaxArea anns :=
          mul_le_mul_of_nonneg_right har hlm
      _ = localMaxArea anns := one_mul _
  apply List.ne_nil_of_mem (a := x)
  simp only [areaFilterStage, List.mem_filter, decide_eq_true_eq]
  exact ⟨hx, hcond⟩

theorem qualifyingSet_eq_nil_iff {ms ar : ℚ} {anns : List Annotation}
    (har : ar ≤ 1) (hpos : ∀ a ∈ anns, 0 ≤ areaOf a) :
    qualifyingSet ms ar anns = [] ↔ scoreFilter ms (cropFilter anns) = [] := by
  constructor
  · intro h
    by_contra hne
    exact areaFilterStage_ne_nil har
      (fun a ha => hpos a (cropFilter_subset a (scoreFilter_subset a ha))) hne h
  · intro h
    simp only [qualifyingSet, h]
    rfl

theorem processImage_no_facets (nw : Bool) (ms ar : ℚ) (anns : List Annotation)
    (har : ar ≤ 1) (hpos : ∀ a ∈ anns, 0 ≤ areaOf a) :
    processImage [] [] [] nw ms ar anns
      = (if (if nw then (qualifyingSet ms ar anns).isEmpty
             else !(qualifyingSet ms ar anns).isEmpty)
         then ImgOutcome.keep (qualifyingSet ms ar anns) else ImgOutcome.skip) := by
  have hq : qualifyingSet ms ar anns = areaFilterStage ar (scoreFilter ms (cropFilter anns)) :=
    rfl
  have hiff : qualifyingSet ms ar anns = [] ↔ scoreFilter ms (cropFilter anns) = [] :=
    qualifyingSet_eq_nil_iff har hpos
  by_cases hs2 : scoreFilter ms (cropFilter anns) = []
  · have hqnil : qualifyingSet ms ar anns = [] := hiff.mpr hs2
    cases nw with
    | false => simp [processImage, gateFails, hs2, hqnil]
    | true =>
      simp [processImage, gateFails, facetStage, colorStage, hs2, hqnil, hq,
        areaFilterStage, localMaxArea]
  · have hqne : qualifyingSet ms ar anns ≠ [] := fun h => hs2 (hiff.mp h)
    cases nw with
    | false =>
      simp [processImage, gateFails, facetStage, colorStage, hs2, hqne, hq]
    | true =>
      have hqne2 : areaFilterStage ar (scoreFilter ms (cropFilter anns)) ≠ [] := by
        rw [← hq]; exact hqne
      simp [processImage, gateFails, hs2, hq, hqne2]

theorem collectImages_no_facets (fe : String → Bool) (folder : String) (nw : Bool)
    (ms ar : ℚ) (anns : List Annotation)
    (har : ar ≤ 1) (hpos : ∀ a ∈ anns, 0 ≤ areaOf a) :
    ∀ imgs : List ImgRec,
      collectImages fe folder [] [] [] nw ms ar anns imgs
        = some (imgs.filterMap (fun img =>
            if (if nw then (qualifyingSet ms ar (annsFor anns img.id)).isEmpty
                else !(qualifyingSet ms ar (annsFor anns img.id)).isEmpty) then
              (find_image_file fe folder (baseName img.file_name)).map
                (fun full => (full, qualifyingSet ms ar (annsFor anns img.id)))
            else none)) := by
  intro imgs
  induction imgs with
  | nil => rfl
  | cons img rest ih =>
    have hpos2 : ∀ a ∈ annsFor anns img.id, 0 ≤ areaOf a :=
      fun a ha => hpos a ((List.mem_filter.mp ha).1)
    have hpi := processImage_no_facets nw ms ar (annsFor anns img.id) har hpos2
    by_cases hgate : (if nw then (qualifyingSet ms ar (annsFor anns img.id)).isEmpty
        else !(qualifyingSet ms ar (annsFor anns img.id)).isEmpty) = true
    · rw [if_pos hgate] at hpi
      cases hf : find_image_file fe folder (baseName img.file_name) with
      | some full =>
        simp only [collectImages, hpi, hf, ih, Option.map_some', List.filterMap_cons,
          if_pos hgate]
      | none =>
        simp only [collectImages, hpi, hf, ih, Option.map_none', List.filterMap_cons,
          if_pos hgate]
    · rw [if_neg hgate] at hpi
      simp only [collectImages, hpi, ih, List.filterMap_cons, if_neg hgate]

/-- C2 amended: restricted to runs with no tool, orientation or color
selection, with min_area_ratio at most 1 and nonnegative areas (the regime
the spec describes), an image appears in the filter_and_collect results — as
(resolved path, matched annotations) — precisely when its file resolves and
its non-crop, score-passing, area-passing set is empty (no_words true)
respectively non-empty (no_words false), and it then carries exactly that
qualifying set. Facet selections or an unresolvable file drop an image
regardless of the gate, which is what refutes the unconditional claim. -/
theorem no_words_gate_characterisation
    (fe : String → Bool) (img_root : String) (docs : List (String × Doc))
    (nw : Bool) (ms ar : ℚ) (har : ar ≤ 1)
    (hpos : ∀ d ∈ docs, ∀ a ∈ d.2.annotations, 0 ≤ areaOf a) :
    filter_and_collect fe img_root (docs.map (fun p => (p.1, some p.2))) [] [] [] nw ms ar
      = some ((docs.map (fun p => p.2.images.filterMap (fun img =>
          if (if nw then (qualifyingSet ms ar (annsFor p.2.annotations img.id)).isEmpty
              else !(qualifyingSet ms ar (annsFor p.2.annotations img.id)).isEmpty) then
            (find_image_file fe (img_root ++ "/" ++ p.1) (baseName img.file_name)).map
              (fun full => (full, qualifyingSet ms ar (annsFor p.2.annotations img.id)))
          else none))).flatten) := by
  induction docs with
  | nil => rfl
  | cons d rest ih =>
    have h1 := collectImages_no_facets fe (img_root ++ "/" ++ d.1) nw ms ar d.2.annotations
      har (hpos d (List.mem_cons_self _ _)) d.2.images
    have h2 := ih (fun d2 hd2 => hpos d2 (List.mem_cons_of_mem _ hd2))
    simp only [List.map_cons, filter_and_collect, h1, h2, List.flatten_cons]

/-- An annotation qualifying on score and area but carrying tool "brush". -/
def cexAnn : Annotation :=
  { image_id := 0, writing_tool := some "brush", score := some 1, area := some 1 }

/-- A one-image document whose only annotation is cexAnn. -/
def cexDoc : Doc :=
  { images := [{ id := 0, file_name := "pg.jpg" }], annotations := [cexAnn] }

/-- C2 counterexample: with no_words false and selected tool "pen", the image
of cexDoc has a non-empty non-crop, score-passing, area-passing annotation
set, yet filter_and_collect returns no match result for it — the claimed iff
fails as soon as a facet selection intervenes. -/
theorem no_words_iff_counterexample :
    filter_and_collect (fun _ => true) "root" [("d", some cexDoc)] ["pen"] [] [] false 0 0
      = some []
    ∧ qualifyingSet 0 0 (annsFor cexDoc.annotations 0) = [cexAnn] := by
  have htool : toolOf cexAnn ≠ "pen" := by decide
  simp only [cexAnn] at htool
  constructor
  · norm_num [filter_and_collect, collectImages, processImage, annsFor, cropFilter,
      scoreFilter, areaFilterStage, localMaxArea, gateFails, facetStage, colorStage,
      scoreOf, areaOf, cexDoc, cexAnn, htool, List.filter]
  · norm_num [qualifyingSet, areaFilterStage, localMaxArea, annsFor, cropFilter,
      scoreFilter, scoreOf, areaOf, cexDoc, cexAnn, List.filter]

/-- A one-image document with no annotations at all. -/
def wDocE : Doc := { images := [{ id := 5, file_name := "empty.jpg" }], annotations := [] }

/-- C2 witness: the amended characterisation applied to the concrete
no-annotation document wDocE under no_words true: its image appears, with an
empty matched annotation list. -/
theorem no_words_gate_characterisation_witness :
    filter_and_collect (fun _ => true) "root" [("e", some wDocE)] [] [] [] true 0 0
      = some [("root/e/empty.jpg", [])] := by
  have h := no_words_gate_characterisation (fun _ => true) "root" [("e", wDocE)] true 0 0
    (by norm_num) (by intro d hd a ha; rcases List.mem_cons.mp hd with rfl | h2
                      · simp [wDocE] at ha
                      · simp at h2)
  simp only [List.map_cons, List.map_nil] at h
  rw [h]
  have hstem : stemOf (baseName "empty.jpg") = "empty" := by decide
  norm_num [wDocE, qualifyingSet, areaFilterStage, localMaxArea, annsFor, cropFilter,
    scoreFilter, scoreOf, areaOf, find_image_file, hstem, List.filter]
  decide

/-! ## Claim C5 -/

/-- C5 counterexample: adding a document that fails to parse makes
filter_and_collect return nothing at all, although the same call without the
malformed document returns a match result — the malformed document is not
skipped, it aborts the whole pass (no try/except around line 204). -/
theorem parse_error_skip_counterexample :
    filter_and_collect (fun _ => true) "root" [("d", some exDoc), ("bad", none)]
        [] [] [] false 0 0
      = none
    ∧ filter_and_collect (fun _ => true) "root" [("d", some exDoc)] [] [] [] false 0 0
      = some [("root/d/pg.jpg", [exAnn])] := by
  constructor
  · norm_num [filter_and_collect, collectImages, processImage, annsFor, cropFilter,
      scoreFilter, areaFilterStage, localMaxArea, gateFails, facetStage, colorStage,
      scoreOf, areaOf, find_image_file, exDoc, exAnn, List.filter]
  · exact exRun_eval

/-- C5 amended: a document that fails to parse as JSON aborts the entire
filter pass: filter_and_collect raises (returns nothing), discarding even the
results of the documents that parsed, rather than skipping the malformed
document and continuing. -/
theorem parse_error_aborts
    (fe : String → Bool) (img_root : String) (docs : List (String × Option Doc))
    (ts os cs : List String) (nw : Bool) (ms ar : ℚ)
    (hbad : ∃ p ∈ docs, p.2 = none) :
    filter_and_collect fe img_root docs ts os cs nw ms ar = none := by
  induction docs with
  | nil =>
    rcases hbad with ⟨p, hp, _⟩
    exact absurd hp (List.not_mem_nil p)
  | cons d rest ih =>
    rcases hbad with ⟨p, hp, hpn⟩
    rcases d with ⟨stem, od⟩
    cases od with
    | none => simp [filter_and_collect]
    | some doc =>
      rcases List.mem_cons.mp hp with heq | hp2
      · rw [heq] at hpn
        simp at hpn
      · cases hcol : collectImages fe (img_root ++ "/" ++ stem) ts os cs nw ms ar
            doc.annotations doc.images with
        | none => simp [filter_and_collect, hcol]
        | some r => simp [filter_and_collect, hcol, ih ⟨p, hp2, hpn⟩]

/-- C5 witness: the amended statement applied to a folder holding a single
malformed document. -/
theorem parse_error_aborts_witness :
    filter_and_collect (fun _ => true) "root" [("bad", none)] [] [] [] false 0 0 = none :=
  parse_error_aborts (fun _ => true) "root" [("bad", none)] [] [] [] false 0 0
    ⟨("bad", none), by simp, rfl⟩

/-! ## Annotation store (_load_json_cached, lines 80-104) -/

/-- The world outside the store: a modification time and a parsed read result
per path (read_text plus json.loads, none when parsing would raise). -/
structure FileSys where
  mtime : String → ℚ
  parsed : String → Option Doc

/-- The _ANNOTATION_CACHE dict: mtime and parsed data per path. -/
def AnnCache : Type := String → Option (ℚ × Doc)

/-- The read-and-store path of _load_json_cached (lines 93-95): performs the
disk read; on success stores the entry; the Bool flag records that a read
happened. -/
def load_read (fs : FileSys) (cache : AnnCache) (path : String) (mtime : ℚ) :
    Option Doc × AnnCache × Bool :=
  match fs.parsed path with
  | none => (none, cache, true)
  | some d => (some d, fun p => if p = path then some (mtime, d) else cache p, true)

/-- Embeds _load_json_cached (lines 85-95): return the cached parse when the
stored mtime equals the current one, otherwise read and replace the entry.
Returns (parse result, cache afterwards, whether a disk read happened). -/
def load_json_cached (fs : FileSys) (cache : AnnCache) (path : String) :
    Option Doc × AnnCache × Bool :=
  let mtime := fs.mtime path
  match cache path with
  | some e => if e.1 = mtime then (some e.2, cache, false) else load_read fs cache path mtime
  | none => load_read fs cache path mtime

/-! ## Claim C8 -/

/-- C8: document loading is memoized by (path, mtime). A hit with unchanged
mtime returns the previously parsed structure with no disk read and an
unchanged cache; after any successful load, an immediate reload with the same
file system reads nothing and returns the identical structure; and a changed
mtime forces a disk read whose successful result replaces the cache entry. -/
theorem load_json_cached_memoizes :
    (∀ (fs : FileSys) (cache : AnnCache) (path : String) (d : Doc),
        cache path = some (fs.mtime path, d) →
        load_json_cached fs cache path = (some d, cache, false))
    ∧ (∀ (fs : FileSys) (cache cache2 : AnnCache) (path : String) (d : Doc) (rd : Bool),
        load_json_cached fs cache path = (some d, cache2, rd) →
        load_json_cached fs cache2 path = (some d, cache2, false))
    ∧ (∀ (fs : FileSys) (cache : AnnCache) (path : String) (m : ℚ) (d d2 : Doc),
        cache path = some (m, d) → m ≠ fs.mtime path → fs.parsed path = some d2 →
        load_json_cached fs cache path
          = (some d2, fun p => if p = path then some (fs.mtime path, d2) else cache p, true)) := by
  refine ⟨?_, ?_, ?_⟩
  · intro fs cache path d hhit
    simp [load_json_cached, hhit]
  · intro fs cache cache2 path d rd h
    simp only [load_json_cached] at h
    split at h
    · rename_i e hentry
      split at h
      · rename_i hmt
        rcases h with ⟨⟩
        simp [load_json_cached, hentry, hmt]
      · rename_i hmt
        simp only [load_read] at h
        split at h
        · cases h
        · rename_i d3 hparse
          rcases h with ⟨⟩
          simp [load_json_cached, hparse]
    · rename_i hentry
      simp only [load_read] at h
      split at h
      · cases h
      · rename_i d3 hparse
        rcases h with ⟨⟩
        simp [load_json_cached, hparse]
  · intro fs cache path m d d2 hhit hne hparse
    simp [load_json_cached, load_read, hhit, hne, hparse]

/-- A concrete parsed document standing for a JSON file on disk. -/
def fsDoc : Doc := { images := [{ id := 0, file_name := "a.jpg" }], annotations := [] }

/-- A concrete file system for the C8 witness: one path with mtime 3. -/
def fsEx : FileSys := { mtime := fun _ => 3, parsed := fun _ => some fsDoc }

/-- A concrete cache holding (3, fsDoc) for the path "f.json". -/
def cacheEx : AnnCache := fun p => if p = "f.json" then some (3, fsDoc) else none

/-- C8 witness: the memoization theorem applied at the concrete store cacheEx
and file system fsEx — a hit returns the cached document without reading. -/
theorem load_json_cached_memoizes_witness :
    load_json_cached fsEx cacheEx "f.json" = (some fsDoc, cacheEx, false) :=
  load_json_cached_memoizes.1 fsEx cacheEx "f.json" fsDoc (by simp [cacheEx, fsEx])

/-! ## Thumbnail cache key (make_thumbnail, lines 298-345) -/

/-- Python int() on a float value: truncation toward zero, on the rational
model. -/
def pyInt (q : ℚ) : Int := if q < 0 then -(⌊-q⌋) else ⌊q⌋

/-- Python format(n, '02d') as used at line 327: zero-pad to width two. -/
def pad2 (n : Int) : String :=
  if 0 ≤ n ∧ n < 10 then "0" ++ Int.repr n else Int.repr n

/-- The page area computation of make_thumbnail (lines 308-321): the scaled
relative bbox of the first annotation carrying page_position, or the full
image treated as the page. -/
def pageAreaOf (W H : ℚ) (anns : List Annotation) : ℚ :=
  match anns.find? (fun a => a.page_position.isSome) with
  | some a =>
    match a.page_position with
    | some pp => (pp.2.2.1 * W) * (pp.2.2.2 * H)
    | none => (1 * W) * (1 * H)
  | none => (1 * W) * (1 * H)

/-- The cache file path derived by make_thumbnail (lines 299-327):
cache_folder/size/stem_flag_sMS_aMA.png with MS = int(min_score*100) and
MA = int(min_area * page_area). The abstract dims function stands for
Image.open(full).size. -/
def make_thumbnail_path (dims : String → ℚ × ℚ) (full : String) (anns : List Annotation)
    (cache_folder : String) (thumb_size : Nat) (min_score min_area : ℚ)
    (overlay : Bool) : String :=
  let ms := pyInt (min_score * 100)
  let W := (dims full).1
  let H := (dims full).2
  let page_area := pageAreaOf W H anns
  let ma := pyInt (min_area * page_area)
  let flag := if overlay then "ov" else "no"
  let stem := stemOf (baseName full)
  cache_folder ++ "/" ++ Nat.repr thumb_size ++ "/" ++ stem ++ "_" ++ flag ++ "_s"
    ++ pad2 ms ++ "_a" ++ Int.repr ma ++ ".png"

/-- Modelled from the spec: Python round() — round half to even — which is
the quantization the spec's key derivation names (round(min_score*100)). -/
def pyRound (q : ℚ) : Int :=
  if q - ⌊q⌋ < 1/2 then ⌊q⌋
  else if 1/2 < q - ⌊q⌋ then ⌊q⌋ + 1
  else if ⌊q⌋ % 2 = 0 then ⌊q⌋ else ⌊q⌋ + 1

/-! ## String cancellation helpers -/

theorem str_data_append (s t : String) : (s ++ t).data = s.data ++ t.data := by
  cases s
  cases t
  rfl

theorem str_ext {s t : String} (h : s.data = t.data) : s = t := by
  cases s with
  | mk a =>
    cases t with
    | mk b =>
      cases h
      rfl

theorem str_append_cancel_right {s t u : String} (h : s ++ u = t ++ u) : s = t := by
  apply str_ext
  have h2 := congrArg String.data h
  rw [str_data_append, str_data_append] at h2
  exact List.append_cancel_right h2

theorem str_append_cancel_left {s t u : String} (h : s ++ t = s ++ u) : t = u := by
  apply str_ext
  have h2 := congrArg String.data h
  rw [str_data_append, str_data_append] at h2
  exact List.append_cancel_left h2

set_option maxHeartbeats 2000000 in
set_option maxRecDepth 10000 in
theorem pad2_inj_le100 :
    ∀ m : Nat, m ≤ 100 → ∀ k : Nat, k ≤ 100 →
      pad2 (Int.ofNat m) = pad2 (Int.ofNat k) → m = k := by decide

theorem pyInt_pct_bounds {s : ℚ} (h0 : 0 ≤ s) (h1 : s ≤ 1) :
    0 ≤ pyInt (s * 100) ∧ pyInt (s * 100) ≤ 100 := by
  have hq0 : 0 ≤ s * 100 := mul_nonneg h0 (by norm_num)
  have hq1 : s * 100 ≤ 100 := by nlinarith
  constructor
  · simp only [pyInt, if_neg (not_lt.mpr hq0)]
    exact Int.le_floor.mpr (by exact_mod_cast hq0)
  · simp only [pyInt, if_neg (not_lt.mpr hq0)]
    calc ⌊s * 100⌋ ≤ ⌊(100 : ℚ)⌋ := Int.floor_le_floor hq1
      _ = 100 := by norm_num

/-! ## Claim C3 -/

/-- C3 amended: the derived cache path is a function of (cache folder, thumb
size, source stem, overlay flag, min_score, min_area_ratio, page area) — two
calls agreeing on all of those agree on the path — and, for min_score in
[0,1] as the FilterSpec demands, any change of min_score that changes the
truncated percent int(min_score*100) changes the derived path. The claim's
rounded percent round(min_score*100) does not govern the key: the code
truncates, so a change of the rounded value need not change the path. -/
theorem thumbnail_key_stability :
    (∀ (dims1 dims2 : String → ℚ × ℚ) (full1 full2 : String)
        (anns1 anns2 : List Annotation) (cf : String) (sz : Nat) (s r : ℚ) (ov : Bool),
        stemOf (baseName full1) = stemOf (baseName full2) →
        pageAreaOf (dims1 full1).1 (dims1 full1).2 anns1
          = pageAreaOf (dims2 full2).1 (dims2 full2).2 anns2 →
        make_thumbnail_path dims1 full1 anns1 cf sz s r ov
          = make_thumbnail_path dims2 full2 anns2 cf sz s r ov)
    ∧ (∀ (dims : String → ℚ × ℚ) (full : String) (anns : List Annotation)
        (cf : String) (sz : Nat) (s1 s2 r : ℚ) (ov : Bool),
        0 ≤ s1 → s1 ≤ 1 → 0 ≤ s2 → s2 ≤ 1 →
        pyInt (s1 * 100) ≠ pyInt (s2 * 100) →
        make_thumbnail_path dims full anns cf sz s1 r ov
          ≠ make_thumbnail_path dims full anns cf sz s2 r ov) := by
  constructor
  · intro dims1 dims2 full1 full2 anns1 anns2 cf sz s r ov hstem harea
    simp only [make_thumbnail_path, hstem, harea]
  · intro dims full anns cf sz s1 s2 r ov h01 h11 h02 h12 hne heq
    apply hne
    simp only [make_thumbnail_path] at heq
    have h3 := str_append_cancel_right heq
    have h4 := str_append_cancel_right h3
    have h5 := str_append_cancel_right h4
    have h6 := str_append_cancel_left h5
    rcases pyInt_pct_bounds h01 h11 with ⟨hb1, hb2⟩
    rcases pyInt_pct_bounds h02 h12 with ⟨hb3, hb4⟩
    have e1 : Int.ofNat (pyInt (s1 * 100)).toNat = pyInt (s1 * 100) :=
      Int.toNat_of_nonneg hb1
    have e2 : Int.ofNat (pyInt (s2 * 100)).toNat = pyInt (s2 * 100) :=
      Int.toNat_of_nonneg hb3
    have hn1 : (pyInt (s1 * 100)).toNat ≤ 100 := by omega
    have hn2 : (pyInt (s2 * 100)).toNat ≤ 100 := by omega
    have hpad : pad2 (Int.ofNat (pyInt (s1 * 100)).toNat)
        = pad2 (Int.ofNat (pyInt (s2 * 100)).toNat) := by
      rw [e1, e2]
      exact h6
    have := pad2_inj_le100 _ hn1 _ hn2 hpad
    rw [← e1, ← e2, this]

/-- C3 counterexample: min_score values 0.282 and 0.288 differ in their value
rounded to hundredths — round(28.2) = 28 while round(28.8) = 29 — yet they
derive the same cache path, because the code truncates int(min_score*100)
to 28 in both cases. -/
theorem thumbnail_round_counterexample :
    pyRound ((282/1000 : ℚ) * 100) = 28
    ∧ pyRound ((288/1000 : ℚ) * 100) = 29
    ∧ make_thumbnail_path (fun _ => (100, 100)) "root/d/pg.jpg" [] "c" 128
        (282/1000) 0 false
      = make_thumbnail_path (fun _ => (100, 100)) "root/d/pg.jpg" [] "c" 128
        (288/1000) 0 false := by
  have hf1 : ⌊(282/1000 : ℚ) * 100⌋ = 28 := by norm_num [Int.floor_eq_iff]
  have hf2 : ⌊(288/1000 : ℚ) * 100⌋ = 28 := by norm_num [Int.floor_eq_iff]
  have hm1 : pyInt ((282/1000 : ℚ) * 100) = 28 := by norm_num [pyInt, hf1]
  have hm2 : pyInt ((288/1000 : ℚ) * 100) = 28 := by norm_num [pyInt, hf2]
  refine ⟨?_, ?_, ?_⟩
  · norm_num [pyRound, hf1]
  · norm_num [pyRound, hf2]
  · simp only [make_thumbnail_path, hm1, hm2]

/-- C3 witness: stability applied to two sources sharing stem "x" and page
area 10000, and truncation sensitivity applied to min_score 0 versus 1. -/
theorem thumbnail_key_stability_witness :
    make_thumbnail_path (fun _ => (100, 100)) "a/x.jpg" [] "c" 128 0 0 false
      = make_thumbnail_path (fun _ => (200, 50)) "b/x.png" [] "c" 128 0 0 false
    ∧ make_thumbnail_path (fun _ => (100, 100)) "a/x.jpg" [] "c" 128 0 0 false
      ≠ make_thumbnail_path (fun _ => (100, 100)) "a/x.jpg" [] "c" 128 1 0 false := by
  constructor
  · refine thumbnail_key_stability.1 _ _ _ _ [] [] "c" 128 0 0 false (by decide) ?_
    norm_num [pageAreaOf]
  · refine thumbnail_key_stability.2 _ _ [] "c" 128 0 1 0 false (by norm_num)
      (by norm_num) (by norm_num) (by norm_num) ?_
    have hz : pyInt ((0 : ℚ) * 100) = 0 := by norm_num [pyInt]
    have ho : pyInt ((1 : ℚ) * 100) = 100 := by norm_num [pyInt]
    rw [hz, ho]
    norm_num

/-! ## Background worker (build_thumbnails, lines 348-377) -/

/-- One message put on the worker queue. -/
inductive Event where
  | total (n : Nat)
  | progress (i n : Nat)
  | done (thumbs : List (String × String × List Annotation))
deriving DecidableEq

/-- Whether an event is a Total message. -/
def isTotalEv : Event → Bool
  | Event.total _ => true
  | _ => false

/-- Whether an event is a Done message. -/
def isDoneEv : Event → Bool
  | Event.done _ => true
  | _ => false

/-- The running count carried by a Progress message. -/
def progressPayload : Event → Option Nat
  | Event.progress i _ => some i
  | _ => none

/-- Embeds build_thumbnails (lines 349-377) as the sequence of events it puts
on its queue: a missing folder short-circuits to a lone Done; an exception
escaping filter_and_collect kills the thread before any event; otherwise
Total, then Progress i+1 of total per thumbnail, then the terminal Done. -/
def build_thumbnails (jsonExists imgExists : Bool) (fe : String → Bool)
    (dims : String → ℚ × ℚ) (img_root : String) (docs : List (String × Option Doc))
    (ts os cs : List String) (nw : Bool) (ms ar : ℚ)
    (cache_folder : String) (thumb_size : Nat) (overlay : Bool) : List Event :=
  if !jsonExists then [Event.done []]
  else if !imgExists then [Event.done []]
  else
    match filter_and_collect fe img_root docs ts os cs nw ms ar with
    | none => []
    | some res =>
      let total := res.length
      let thumbs := res.map (fun pr =>
        (make_thumbnail_path dims pr.1 pr.2 cache_folder thumb_size ms ar overlay,
          pr.1, pr.2))
      Event.total total
        :: (res.enum.map (fun p => Event.progress (p.1 + 1) total) ++ [Event.done thumbs])

/-! ## Claim C9 -/

/-- C9 amended: when both folders exist and the filter pass succeeds, the
worker emits exactly one Total, as the first event, then Progress counts
1..n strictly increasing and bounded by the total, then exactly one Done, as
the last event. A run with a missing folder, however, emits a single Done
and no Total at all, and a run whose filter pass raises emits nothing — so
the unconditional protocol of the claim does not hold of every run. -/
theorem worker_event_protocol :
    (∀ (fe : String → Bool) (dims : String → ℚ × ℚ) (img_root : String)
        (docs : List (String × Option Doc)) (ts os cs : List String) (nw : Bool)
        (ms ar : ℚ) (cf : String) (sz : Nat) (ov : Bool)
        (res : List (String × List Annotation)),
        filter_and_collect fe img_root docs ts os cs nw ms ar = some res →
        (let evs := build_thumbnails true true fe dims img_root docs ts os cs nw ms ar cf sz ov
        evs = Event.total res.length
            :: (res.enum.map (fun p => Event.progress (p.1 + 1) res.length)
              ++ [Event.done (res.map (fun pr =>
                    (make_thumbnail_path dims pr.1 pr.2 cf sz ms ar ov, pr.1, pr.2)))])
          ∧ evs.countP isTotalEv = 1
          ∧ evs.head? = some (Event.total res.length)
          ∧ List.Chain' (· < ·) (evs.filterMap progressPayload)
          ∧ (∀ i ∈ evs.filterMap progressPayload, i ≤ res.length)
          ∧ evs.countP isDoneEv = 1
          ∧ evs.getLast? = some (Event.done (res.map (fun pr =>
              (make_thumbnail_path dims pr.1 pr.2 cf sz ms ar ov, pr.1, pr.2))))))
    ∧ (∀ (b : Bool) (fe : String → Bool) (dims : String → ℚ × ℚ) (img_root : String)
        (docs : List (String × Option Doc)) (ts os cs : List String) (nw : Bool)
        (ms ar : ℚ) (cf : String) (sz : Nat) (ov : Bool),
        build_thumbnails false b fe dims img_root docs ts os cs nw ms ar cf sz ov
          = [Event.done []])
    ∧ (∀ (fe : String → Bool) (dims : String → ℚ × ℚ) (img_root : String)
        (docs : List (String × Option Doc)) (ts os cs : List String) (nw : Bool)
        (ms ar : ℚ) (cf : String) (sz : Nat) (ov : Bool),
        build_thumbnails true false fe dims img_root docs ts os cs nw ms ar cf sz ov
          = [Event.done []])
    ∧ (∀ (fe : String → Bool) (dims : String → ℚ × ℚ) (img_root : String)
        (docs : List (String × Option Doc)) (ts os cs : List String) (nw : Bool)
        (ms ar : ℚ) (cf : String) (sz : Nat) (ov : Bool),
        filter_and_collect fe img_root docs ts os cs nw ms ar = none →
        build_thumbnails true true fe dims img_root docs ts os cs nw ms ar cf sz ov = []) := by
  refine ⟨?_, ?_, ?_, ?_⟩
  · intro fe dims img_root docs ts os cs nw ms ar cf sz ov res hres
    have hevs : build_thumbnails true true fe dims img_root docs ts os cs nw ms ar cf sz ov
        = Event.total res.length
            :: (res.enum.map (fun p => Event.progress (p.1 + 1) res.length)
              ++ [Event.done (res.map (fun pr =>
                    (make_thumbnail_path dims pr.1 pr.2 cf sz ms ar ov, pr.1, pr.2)))]) := by
      simp [build_thumbnails, hres]
    have hpayload : (build_thumbnails true true fe dims img_root docs ts os cs nw ms ar
          cf sz ov).filterMap progressPayload
        = (List.range res.length).map (fun i => i + 1) := by
      rw [hevs]
      simp only [List.filterMap_cons, progressPayload, List.filterMap_append,
        List.filterMap_map]
      have : (progressPayload ∘ fun p : Nat × (String × List Annotation) =>
          Event.progress (p.1 + 1) res.length)
          = some ∘ (fun p : Nat × (String × List Annotation) => p.1 + 1) := rfl
      rw [this, List.filterMap_eq_map]
      simp only [List.filterMap_nil, List.append_nil]
      rw [show (fun p : Nat × (String × List Annotation) => p.1 + 1)
          = (fun i : Nat => i + 1) ∘ Prod.fst from rfl]
      rw [← List.map_map, List.enum_map_fst]
    refine ⟨hevs, ?_, ?_, ?_, ?_, ?_, ?_⟩
    · rw [hevs]
      simp [List.countP_cons, List.countP_append, List.countP_map, isTotalEv,
        List.countP_eq_zero]
    · rw [hevs]; rfl
    · rw [hpayload]
      apply List.Pairwise.chain'
      exact List.Pairwise.map _ (fun a b h => by omega) (List.pairwise_lt_range _)
    · rw [hpayload]
      intro i hi
      rcases List.mem_map.mp hi with ⟨j, hj, rfl⟩
      have := List.mem_range.mp hj
      omega
    · rw [hevs]
      simp [List.countP_cons, List.countP_append, List.countP_map, isDoneEv,
        List.countP_eq_zero]
    · rw [hevs, ← List.cons_append]
      exact List.getLast?_concat _
  · intro b fe dims img_root docs ts os cs nw ms ar cf sz ov
    rfl
  · intro fe dims img_root docs ts os cs nw ms ar cf sz ov
    rfl
  · intro fe dims img_root docs ts os cs nw ms ar cf sz ov hnone
    simp [build_thumbnails, hnone]

/-- C9 counterexample: a worker run whose JSON folder is missing emits a
single Done and zero Total events, refuting the claim that every run emits
exactly one Total before its Done. -/
theorem worker_event_counterexample :
    build_thumbnails false true (fun _ => true) (fun _ => (1, 1)) "root" [] [] [] []
        false 0 0 "c" 128 false
      = [Event.done []]
    ∧ (build_thumbnails false true (fun _ => true) (fun _ => (1, 1)) "root" [] [] [] []
        false 0 0 "c" 128 false).countP isTotalEv = 0 :=
  ⟨rfl, rfl⟩

/-- C9 witness: the protocol applied to the concrete successful run on exDoc:
one result, hence events Total 1, Progress 1 1, Done. -/
theorem worker_event_protocol_witness :
    build_thumbnails true true (fun _ => true) (fun _ => (1, 1)) "root"
        [("d", some exDoc)] [] [] [] false 0 0 "c" 128 false
      = [Event.total 1, Event.progress 1 1,
          Event.done [(make_thumbnail_path (fun _ => (1, 1)) "root/d/pg.jpg" [exAnn]
            "c" 128 0 0 false, "root/d/pg.jpg", [exAnn])]] := by
  have h := worker_event_protocol.1 (fun _ => true) (fun _ => (1, 1)) "root"
    [("d", some exDoc)] [] [] [] false 0 0 "c" 128 false
    [("root/d/pg.jpg", [exAnn])] exRun_eval
  rw [h.1]
  rfl

/-! ## Claim C10 -/

/-- C10: because filter_and_collect removes every annotation carrying
page_position, the annotation list the worker hands to make_thumbnail never
contains one: for every match result, the first-page-position search of
make_thumbnail finds nothing, the page area falls back to the full image
W * H, and the derived cache path coincides with the one computed with no
annotations at all — the quantized area component int(min_area * page_area)
is always int(min_area * W * H), never a page-crop bbox area. -/
theorem thumbnail_page_area_full_image
    (fe : String → Bool) (img_root : String) (docs : List (String × Option Doc))
    (ts os cs : List String) (nw : Bool) (ms ar : ℚ)
    (res : List (String × List Annotation))
    (h : filter_and_collect fe img_root docs ts os cs nw ms ar = some res) :
    ∀ pr ∈ res, ∀ (dims : String → ℚ × ℚ),
      pr.2.find? (fun a => a.page_position.isSome) = none
      ∧ pageAreaOf (dims pr.1).1 (dims pr.1).2 pr.2 = (dims pr.1).1 * (dims pr.1).2
      ∧ (∀ (cf : String) (sz : Nat) (s r : ℚ) (ov : Bool),
          make_thumbnail_path dims pr.1 pr.2 cf sz s r ov
            = make_thumbnail_path dims pr.1 [] cf sz s r ov) := by
  intro pr hpr dims
  have hnp : ∀ a ∈ pr.2, a.page_position = none :=
    fc_results_no_page fe img_root docs ts os cs nw ms ar res h pr hpr
  have hfind : pr.2.find? (fun a => a.page_position.isSome) = none := by
    rw [List.find?_eq_none]
    intro a ha
    rw [hnp a ha]
    simp
  have harea : ∀ (W H : ℚ), pageAreaOf W H pr.2 = W * H := by
    intro W H
    rw [pageAreaOf, hfind]
    ring
  have harea0 : ∀ (W H : ℚ), pageAreaOf W H ([] : List Annotation) = W * H := by
    intro W H
    rw [pageAreaOf]
    simp only [List.find?_nil]
    ring
  refine ⟨hfind, harea _ _, ?_⟩
  intro cf sz s r ov
  simp only [make_thumbnail_path, harea, harea0]

/-- C10 witness: the theorem applied to the concrete run exRun_eval: the
single matched annotation list contains no page position and its page area
against a 100 x 100 source is the full image area. -/
theorem thumbnail_page_area_full_image_witness :
    ([exAnn].find? (fun a => a.page_position.isSome) = none)
    ∧ pageAreaOf 100 100 [exAnn] = 100 * 100 := by
  have h := thumbnail_page_area_full_image (fun _ => true) "root" [("d", some exDoc)]
    [] [] [] false 0 0 [("root/d/pg.jpg", [exAnn])] exRun_eval
    ("root/d/pg.jpg", [exAnn]) (by simp) (fun _ => (100, 100))
  exact ⟨h.1, h.2.1⟩
